import Mathlib

/-!
A shallow embedding of the birthday-paradox program `src/app.py`, together with
proofs of its specification's claims.

Modelling conventions:
* Python `float` arithmetic is idealised as exact rational arithmetic (`ℚ`).
* Python `int` arguments that may be negative are `ℤ`; counts are `ℕ`.
* The pseudo-random source is made explicit: each primitive draw is a parameter,
  so theorems quantifying over "every outcome of the random source" quantify over
  those parameters.
* Fallible operations (`dt.date` construction, Python division) return `Except`.
-/

/-- `MONTH_LENGTHS_COMMON` from `app.py`. -/
def MONTH_LENGTHS_COMMON : List ℕ := [31, 28, 31, 30, 31, 30, 31, 31, 30, 31, 30, 31]

/-- `MONTH_LENGTHS_LEAP` from `app.py`. -/
def MONTH_LENGTHS_LEAP : List ℕ := [31, 29, 31, 30, 31, 30, 31, 31, 30, 31, 30, 31]

/-- `_month_lengths(include_leap)` from `app.py`. -/
def month_lengths (include_leap : Bool) : List ℕ :=
  if include_leap then MONTH_LENGTHS_LEAP else MONTH_LENGTHS_COMMON

/-- A calendar date, the payload of Python's `datetime.date`. -/
structure Date where
  year : ℕ
  month : ℕ
  day : ℕ
deriving DecidableEq

/-- Gregorian leap-year test, as used by Python's `datetime.date` validation. -/
def is_leap_year (y : ℕ) : Bool :=
  y % 4 == 0 && (y % 100 != 0 || y % 400 == 0)

/-- Length of month `m` of year `y` in the real (Gregorian) calendar, as used by
Python's `datetime.date` validation. -/
def days_in_month (y m : ℕ) : ℕ :=
  if m = 2 then (if is_leap_year y then 29 else 28)
  else if m = 4 ∨ m = 6 ∨ m = 9 ∨ m = 11 then 30
  else 31

/-- `dt.date(year, month, day)`: Python's constructor validates its arguments
against the real calendar and raises `ValueError` when they are out of range. -/
def dt_date (year month day : ℕ) : Except String Date :=
  if 1 ≤ month ∧ month ≤ 12 ∧ 1 ≤ day ∧ day ≤ days_in_month year month then
    Except.ok ⟨year, month, day⟩
  else
    Except.error "ValueError: day is out of range for month"

/-- `random.choices(range(1, 13), weights=months, k=1)[0]` from `random_birthday`:
the underlying draw is a number `r` in `[0, sum of weights)`, and the selected
element is the one whose cumulative-weight interval contains `r` (here returned as
a 1-based month index). -/
def weighted_choice : List ℕ → ℕ → ℕ
  | [], _ => 0
  | w :: ws, r => if r < w then 1 else 1 + weighted_choice ws (r - w)

/-- `random_birthday(year, include_leap)` from `app.py`.  The outcome of the
random source is `(r, v)`: `r` drives the weighted month choice, and
`random.randint(1, m)` is modelled as `1 + v % m`, whose range over all `v` is
exactly `[1, m]`.  The final `dt.date(year, month, day)` call can fail, hence the
`Except` result. -/
def random_birthday (year : ℕ) (include_leap : Bool) (r v : ℕ) : Except String Date :=
  let months := month_lengths include_leap
  let month := weighted_choice months r
  let day := 1 + v % months.getD (month - 1) 0
  dt_date year month day

/-- `generate_group(n, include_leap)` from `app.py`:
`[random_birthday(include_leap=include_leap) for _ in range(n)]`.
Python's `range(n)` is empty for `n ≤ 0` (no exception for negative `n`), and
`random_birthday` keeps its default `year = 2001`.  Iteration `i` consumes the
random outcome `rands i`. -/
def generate_group (n : ℤ) (include_leap : Bool) (rands : ℕ → ℕ × ℕ) :
    Except String (List Date) :=
  (List.range n.toNat).mapM
    (fun i => random_birthday 2001 include_leap (rands i).1 (rands i).2)

/-- `_md_pairs(dates)` from `app.py`: the list of `(month, day)` pairs. -/
def _md_pairs (dates : List Date) : List (ℕ × ℕ) :=
  dates.map (fun d => (d.month, d.day))

/-- `has_shared_birthday(dates)` from `app.py`: `len(md) != len(set(md))`, where
the number of distinct elements `len(set(md))` is modelled as `md.dedup.length`. -/
def has_shared_birthday (dates : List Date) : Bool :=
  (_md_pairs dates).length != ((_md_pairs dates).dedup).length

/-- `find_shared_birthdays(dates)` from `app.py`: `Counter(md)` maps each distinct
pair to its multiplicity (modelled as an association list over `md.dedup`), and the
dict comprehension keeps the entries with count `> 1`. -/
def find_shared_birthdays (dates : List Date) : List ((ℕ × ℕ) × ℕ) :=
  let md := _md_pairs dates
  (md.dedup.map (fun k => (k, md.count k))).filter (fun kv => 1 < kv.2)

/-- The running product `p_all_diff` of `exact_probability`:
`for i in range(n): p_all_diff *= (days - i) / days`. -/
def all_diff_prod (n days : ℕ) : ℚ :=
  ∏ i ∈ Finset.range n, (((days : ℚ) - i) / days)

/-- `exact_probability(n, days)` from `app.py`, with `float` arithmetic idealised
as `ℚ`: `0` when `n ≤ 1`, `1` when `n > days`, else `1 - prod((days - i)/days)`. -/
def exact_probability (n : ℤ) (days : ℕ) : ℚ :=
  if n ≤ 1 then 0
  else if (days : ℤ) < n then 1
  else 1 - all_diff_prod n.toNat days

/-- Python division `a / b`, which raises `ZeroDivisionError` when `b = 0`. -/
def py_div (a b : ℚ) : Except String ℚ :=
  if b = 0 then Except.error "ZeroDivisionError" else Except.ok (a / b)

/-- The `for _ in range(trials)` generation shared by `simulated_probability` and
`collision_histogram`: trial `t` calls `generate_group(n, include_leap)`, which
consumes the random outcomes `rands t`.  A `ValueError` raised inside any trial
aborts the loop and propagates, exactly as a Python exception would. -/
def generated_groups (n : ℤ) (trials : ℕ) (include_leap : Bool)
    (rands : ℕ → ℕ → ℕ × ℕ) : Except String (List (List Date)) :=
  (List.range trials).mapM (fun t => generate_group n include_leap (rands t))

/-- `simulated_probability(n, trials, include_leap)` from `app.py`: each of the
`trials` loop iterations generates a fresh group (any exception propagating), and
`hits` counts the generated groups with a shared birthday; the function ends with
the unguarded Python division `hits / trials`. -/
def simulated_probability (n : ℤ) (trials : ℕ) (include_leap : Bool)
    (rands : ℕ → ℕ → ℕ × ℕ) : Except String ℚ :=
  generated_groups n trials include_leap rands >>= fun groups =>
    py_div ((groups.countP (fun g => has_shared_birthday g) : ℕ) : ℚ)
      ((trials : ℕ) : ℚ)

/-- The body of the `while` loop of `smallest_group_for`: run while
`exact_probability(n, days) < target`, incrementing `n` by 1.  The source loop is
unbounded; here it carries explicit fuel, and `claim_C2` shows that fuel
`days + 1` (starting from `n = 1`) is enough whenever `target ≤ 1`, and that the
result does not depend on the fuel beyond that bound. -/
def smallest_group_for_loop (target : ℚ) (days : ℕ) : ℕ → ℕ → ℕ
  | n, 0 => n
  | n, fuel + 1 =>
    if exact_probability n days < target then
      smallest_group_for_loop target days (n + 1) fuel
    else n

/-- `smallest_group_for(target, days)` from `app.py`: start at `n = 1` and scan
upward for the first `n` with `exact_probability(n, days) ≥ target`. -/
def smallest_group_for (target : ℚ) (days : ℕ) : ℕ :=
  smallest_group_for_loop target days 1 (days + 1)

/-- `expected_matching_pairs(n, days)` from `app.py`: `n * (n - 1) / (2 * days)`
with `float` arithmetic idealised as `ℚ`. -/
def expected_matching_pairs (n days : ℕ) : ℚ :=
  (n : ℚ) * ((n : ℚ) - 1) / (2 * days)

/-- The bucket chosen by the `if k == 0 / elif k == 1 / else` cascade in
`collision_histogram`, where `k` is the number of distinct colliding days. -/
def bucket_label (k : ℕ) : String :=
  if k = 0 then "0 days with duplicates"
  else if k = 1 then "1 day with duplicates"
  else "2+ days with duplicates"

/-- `collision_histogram(n, trials, include_leap)` from `app.py`: each of the
`trials` loop iterations generates a fresh group (any exception propagating) and
increments the bucket selected by the `k == 0 / k == 1 / else` cascade.  The
`defaultdict(int)` converted with `dict(...)` at the end is modelled as the
association list pairing each observed bucket label with its number of
occurrences: a label is a key exactly when it was incremented at least once. -/
def collision_histogram (n : ℤ) (trials : ℕ) (include_leap : Bool)
    (rands : ℕ → ℕ → ℕ × ℕ) : Except String (List (String × ℕ)) :=
  generated_groups n trials include_leap rands >>= fun groups =>
    let ls := groups.map (fun g => bucket_label (find_shared_birthdays g).length)
    Except.ok (ls.dedup.map (fun l => (l, ls.count l)))

/-! ### Facts about `all_diff_prod` and `exact_probability` -/

lemma all_diff_prod_pos {days m : ℕ} (hd : 1 ≤ days) (hm : m ≤ days) :
    0 < all_diff_prod m days := by
  have hdq : (0 : ℚ) < days := by exact_mod_cast Nat.lt_of_lt_of_le Nat.zero_lt_one hd
  unfold all_diff_prod
  apply Finset.prod_pos
  intro i hi
  rw [Finset.mem_range] at hi
  have hiq : (i : ℚ) < days := by exact_mod_cast Nat.lt_of_lt_of_le hi hm
  exact div_pos (by linarith) hdq

lemma all_diff_prod_le_one {days m : ℕ} (hd : 1 ≤ days) (hm : m ≤ days) :
    all_diff_prod m days ≤ 1 := by
  have hdq : (0 : ℚ) < days := by exact_mod_cast Nat.lt_of_lt_of_le Nat.zero_lt_one hd
  unfold all_diff_prod
  apply Finset.prod_le_one
  · intro i hi
    rw [Finset.mem_range] at hi
    have hiq : (i : ℚ) < days := by exact_mod_cast Nat.lt_of_lt_of_le hi hm
    exact le_of_lt (div_pos (by linarith) hdq)
  · intro i hi
    rw [div_le_one hdq]
    have : (0 : ℚ) ≤ i := Nat.cast_nonneg i
    linarith

lemma all_diff_prod_anti {days m₁ : ℕ} (hd : 1 ≤ days) :
    ∀ m₂, m₁ ≤ m₂ → m₂ ≤ days → all_diff_prod m₂ days ≤ all_diff_prod m₁ days := by
  intro m₂ h12
  induction m₂, h12 using Nat.le_induction with
  | base => intro _; exact le_rfl
  | succ m hm ih =>
    intro h2
    have hdq : (0 : ℚ) < days := by exact_mod_cast Nat.lt_of_lt_of_le Nat.zero_lt_one hd
    have hstep : all_diff_prod (m + 1) days
        = all_diff_prod m days * (((days : ℚ) - m) / days) := by
      unfold all_diff_prod
      exact Finset.prod_range_succ _ _
    have hf1 : ((days : ℚ) - m) / days ≤ 1 := by
      rw [div_le_one hdq]
      have : (0 : ℚ) ≤ m := Nat.cast_nonneg m
      linarith
    have hp0 : 0 ≤ all_diff_prod m days :=
      le_of_lt (all_diff_prod_pos hd (by omega))
    calc all_diff_prod (m + 1) days
        = all_diff_prod m days * (((days : ℚ) - m) / days) := hstep
      _ ≤ all_diff_prod m days * 1 := mul_le_mul_of_nonneg_left hf1 hp0
      _ = all_diff_prod m days := mul_one _
      _ ≤ all_diff_prod m₁ days := ih (by omega)

lemma exact_probability_of_le_one {n : ℤ} {days : ℕ} (h : n ≤ 1) :
    exact_probability n days = 0 := by
  unfold exact_probability
  rw [if_pos h]

lemma exact_probability_of_gt {n : ℤ} {days : ℕ} (h1 : ¬n ≤ 1) (h2 : (days : ℤ) < n) :
    exact_probability n days = 1 := by
  unfold exact_probability
  rw [if_neg h1, if_pos h2]

lemma exact_probability_mid {n : ℤ} {days : ℕ} (h1 : ¬n ≤ 1) (h2 : ¬(days : ℤ) < n) :
    exact_probability n days = 1 - all_diff_prod n.toNat days := by
  unfold exact_probability
  rw [if_neg h1, if_neg h2]

lemma exact_probability_nonneg (n : ℤ) (days : ℕ) (hd : 1 ≤ days) :
    0 ≤ exact_probability n days := by
  unfold exact_probability
  split_ifs with h1 h2
  · exact le_rfl
  · exact zero_le_one
  · have hm : n.toNat ≤ days := Int.toNat_le.mpr (not_lt.mp h2)
    have := all_diff_prod_le_one hd hm
    linarith

lemma exact_probability_le_one (n : ℤ) (days : ℕ) (hd : 1 ≤ days) :
    exact_probability n days ≤ 1 := by
  unfold exact_probability
  split_ifs with h1 h2
  · exact zero_le_one
  · exact le_rfl
  · have hm : n.toNat ≤ days := Int.toNat_le.mpr (not_lt.mp h2)
    have := all_diff_prod_pos hd hm
    linarith

lemma exact_probability_mono {days : ℕ} (hd : 1 ≤ days) {n₁ n₂ : ℤ} (h : n₁ ≤ n₂) :
    exact_probability n₁ days ≤ exact_probability n₂ days := by
  by_cases h1 : n₁ ≤ 1
  · rw [exact_probability_of_le_one h1]
    exact exact_probability_nonneg _ _ hd
  · have h1' : ¬n₂ ≤ 1 := fun hc => h1 (le_trans h hc)
    by_cases h2 : (days : ℤ) < n₂
    · rw [exact_probability_of_gt h1' h2]
      exact exact_probability_le_one _ _ hd
    · have h2' : ¬(days : ℤ) < n₁ := fun hc => h2 (lt_of_lt_of_le hc h)
      rw [exact_probability_mid h1 h2', exact_probability_mid h1' h2]
      have hmono := all_diff_prod_anti hd n₂.toNat (Int.toNat_le_toNat h)
        (Int.toNat_le.mpr (not_lt.mp h2))
      linarith

/-- Claim C1: for every `n` and every `days ≥ 1`, `exact_probability` returns `0`
when `n ≤ 1`, returns `1` when `n > days`, and otherwise returns
`1 - ∏ i in [0, n), (days - i) / days`; and the returned value lies in `[0, 1]`. -/
theorem claim_C1 (n : ℤ) (days : ℕ) (hd : 1 ≤ days) :
    (n ≤ 1 → exact_probability n days = 0) ∧
    ((days : ℤ) < n → exact_probability n days = 1) ∧
    (1 < n → n ≤ (days : ℤ) →
      exact_probability n days = 1 - ∏ i ∈ Finset.range n.toNat, (((days : ℚ) - i) / days)) ∧
    0 ≤ exact_probability n days ∧ exact_probability n days ≤ 1 := by
  refine ⟨fun h => exact_probability_of_le_one h, fun h => ?_, fun ha hb => ?_,
    exact_probability_nonneg n days hd, exact_probability_le_one n days hd⟩
  · exact exact_probability_of_gt (by omega) h
  · exact exact_probability_mid (by omega) (by omega)

/-- Closed witness for `claim_C1` at concrete inputs. -/
theorem claim_C1_witness :
    exact_probability 400 365 = 1 ∧ 0 ≤ exact_probability 23 365 :=
  ⟨(claim_C1 400 365 (by norm_num)).2.1 (by norm_num),
    (claim_C1 23 365 (by norm_num)).2.2.2.1⟩

/-- Claim C3: for every fixed `days ≥ 1`, `exact_probability` is monotonically
non-decreasing in `n`. -/
theorem claim_C3 (days : ℕ) (hd : 1 ≤ days) (n₁ n₂ : ℤ) (h : n₁ ≤ n₂) :
    exact_probability n₁ days ≤ exact_probability n₂ days :=
  exact_probability_mono hd h

/-- Closed witness for `claim_C3` at concrete inputs. -/
theorem claim_C3_witness : exact_probability 10 365 ≤ exact_probability 20 365 :=
  claim_C3 365 (by norm_num) 10 20 (by norm_num)

/-! ### Facts about `smallest_group_for` -/

lemma smallest_group_for_loop_ge (target : ℚ) (days : ℕ) :
    ∀ fuel n, n ≤ smallest_group_for_loop target days n fuel := by
  intro fuel
  induction fuel with
  | zero => intro n; exact le_rfl
  | succ f ih =>
    intro n
    simp only [smallest_group_for_loop]
    split
    · exact le_trans (Nat.le_succ n) (ih (n + 1))
    · exact le_rfl

lemma smallest_group_for_loop_reaches (target : ℚ) (days : ℕ) :
    ∀ (fuel n : ℕ), target ≤ exact_probability ((n : ℤ) + (fuel : ℤ)) days →
      target ≤ exact_probability (smallest_group_for_loop target days n fuel) days := by
  intro fuel
  induction fuel with
  | zero =>
    intro n h
    simpa using h
  | succ f ih =>
    intro n h
    simp only [smallest_group_for_loop]
    split
    · apply ih (n + 1)
      have hcast : ((n + 1 : ℕ) : ℤ) + (f : ℤ) = (n : ℤ) + ((f + 1 : ℕ) : ℤ) := by
        push_cast
        ring
      rw [hcast]
      exact h
    · next hge => exact not_lt.mp hge

lemma smallest_group_for_loop_min (target : ℚ) (days : ℕ) :
    ∀ fuel n m, n ≤ m → m < smallest_group_for_loop target days n fuel →
      exact_probability m days < target := by
  intro fuel
  induction fuel with
  | zero =>
    intro n m hnm hlt
    simp only [smallest_group_for_loop] at hlt
    omega
  | succ f ih =>
    intro n m hnm hlt
    simp only [smallest_group_for_loop] at hlt
    split at hlt
    · next hcond =>
        rcases eq_or_lt_of_le hnm with heq | hlt2
        · rw [← heq]
          exact hcond
        · exact ih (n + 1) m hlt2 hlt
    · omega

lemma smallest_group_for_loop_least (target : ℚ) (days : ℕ) (h1 : target ≤ 1)
    {fuel : ℕ} (hfuel : days + 1 ≤ fuel) :
    IsLeast {n : ℕ | 1 ≤ n ∧ target ≤ exact_probability n days}
      (smallest_group_for_loop target days 1 fuel) := by
  constructor
  · refine ⟨smallest_group_for_loop_ge target days fuel 1, ?_⟩
    apply smallest_group_for_loop_reaches
    have hn1 : ¬(((1 : ℕ) : ℤ) + (fuel : ℤ) ≤ 1) := by omega
    have hgt : (days : ℤ) < ((1 : ℕ) : ℤ) + (fuel : ℤ) := by omega
    rw [exact_probability_of_gt hn1 hgt]
    exact h1
  · intro m hm
    by_contra hcon
    push_neg at hcon
    have := smallest_group_for_loop_min target days fuel 1 m hm.1 hcon
    exact absurd hm.2 (not_le.mpr this)

lemma exact_probability_23 : (1 : ℚ) / 2 ≤ exact_probability 23 365 := by
  rw [exact_probability_mid (by norm_num) (by norm_num),
    show (23 : ℤ).toNat = 23 from rfl]
  unfold all_diff_prod
  norm_num [Finset.prod_range_succ]

lemma exact_probability_22 : exact_probability 22 365 < 1 / 2 := by
  rw [exact_probability_mid (by norm_num) (by norm_num),
    show (22 : ℤ).toNat = 22 from rfl]
  unfold all_diff_prod
  norm_num [Finset.prod_range_succ]

lemma exact_probability_57 : (99 : ℚ) / 100 ≤ exact_probability 57 365 := by
  rw [exact_probability_mid (by norm_num) (by norm_num),
    show (57 : ℤ).toNat = 57 from rfl]
  unfold all_diff_prod
  norm_num [Finset.prod_range_succ]

lemma exact_probability_56 : exact_probability 56 365 < 99 / 100 := by
  rw [exact_probability_mid (by norm_num) (by norm_num),
    show (56 : ℤ).toNat = 56 from rfl]
  unfold all_diff_prod
  norm_num [Finset.prod_range_succ]

lemma smallest_group_for_eq_of_bounds {target : ℚ} {days k : ℕ} (hd : 1 ≤ days)
    (h1 : target ≤ 1) (hk2 : 2 ≤ k)
    (hk : target ≤ exact_probability (k : ℤ) days)
    (hk' : exact_probability ((k : ℤ) - 1) days < target) :
    smallest_group_for target days = k := by
  have hL := smallest_group_for_loop_least target days h1 (le_refl (days + 1))
  have hub : smallest_group_for target days ≤ k := hL.2 ⟨by omega, hk⟩
  have hlb : k ≤ smallest_group_for target days := by
    by_contra hcon
    push_neg at hcon
    have hmem := hL.1
    have hle : ((smallest_group_for target days : ℕ) : ℤ) ≤ (k : ℤ) - 1 := by omega
    have hmono := exact_probability_mono hd hle
    have := lt_of_le_of_lt (le_trans hmem.2 hmono) hk'
    exact lt_irrefl target this
  omega

/-- Claim C2: for every `days ≥ 1` and every `target ∈ [0, 1]`,
`smallest_group_for(target, days)` terminates (its `while` loop needs at most
`days + 1` iterations, and any fuel beyond that bound gives the same result) and
returns the smallest `n ≥ 1` with `exact_probability(n, days) ≥ target`;
in particular `smallest_group_for(0.5, 365) = 23` and
`smallest_group_for(0.99, 365) = 57`. -/
theorem claim_C2 (days : ℕ) (target : ℚ) (hd : 1 ≤ days) (h0 : 0 ≤ target)
    (h1 : target ≤ 1) :
    IsLeast {n : ℕ | 1 ≤ n ∧ target ≤ exact_probability n days}
      (smallest_group_for target days) ∧
    (∀ fuel, days + 1 ≤ fuel →
      smallest_group_for_loop target days 1 fuel = smallest_group_for target days) ∧
    smallest_group_for (1 / 2) 365 = 23 ∧ smallest_group_for (99 / 100) 365 = 57 := by
  refine ⟨smallest_group_for_loop_least target days h1 (le_refl (days + 1)), ?_, ?_, ?_⟩
  · intro fuel hf
    exact (smallest_group_for_loop_least target days h1 hf).unique
      (smallest_group_for_loop_least target days h1 (le_refl (days + 1)))
  · exact smallest_group_for_eq_of_bounds (by norm_num) (by norm_num) (by norm_num)
      exact_probability_23 (by simpa using exact_probability_22)
  · exact smallest_group_for_eq_of_bounds (by norm_num) (by norm_num) (by norm_num)
      exact_probability_57 (by simpa using exact_probability_56)

/-- Closed witness for `claim_C2` at concrete inputs. -/
theorem claim_C2_witness : smallest_group_for (1 / 2) 365 = 23 :=
  (claim_C2 365 (1 / 2) (by norm_num) (by norm_num) (by norm_num)).2.2.1

/-! ### Duplicate detection claims -/

/-- Claim C4: `has_shared_birthday(dates)` is true iff the multiset of
`(month, day)` pairs of `dates` has fewer distinct elements than total elements;
in particular it is false on `[]` and true on a list whose pairs are
`[(1,1), (1,1), (2,2)]`. -/
theorem claim_C4 :
    (∀ dates : List Date,
      has_shared_birthday dates = true ↔
        ((_md_pairs dates).dedup).length < (_md_pairs dates).length) ∧
    has_shared_birthday [] = false ∧
    has_shared_birthday [⟨2001, 1, 1⟩, ⟨2001, 1, 1⟩, ⟨2001, 2, 2⟩] = true := by
  refine ⟨?_, rfl, rfl⟩
  intro dates
  have hle : ((_md_pairs dates).dedup).length ≤ (_md_pairs dates).length :=
    (List.dedup_sublist (_md_pairs dates)).length_le
  simp only [has_shared_birthday, bne_iff_ne, ne_eq]
  omega

/-- Claim C5: `find_shared_birthdays(dates)` is exactly the mapping sending each
`(month, day)` pair occurring more than once in `dates` to its occurrence count
(so it has no entry with count `≤ 1`); in particular on a list whose pairs are
`[(1,1), (1,1), (2,2)]` it returns the single entry `(1,1) ↦ 2`. -/
theorem claim_C5 :
    (∀ (dates : List Date) (k : ℕ × ℕ) (c : ℕ),
      (k, c) ∈ find_shared_birthdays dates ↔
        ((_md_pairs dates).count k = c ∧ 1 < c)) ∧
    find_shared_birthdays [⟨2001, 1, 1⟩, ⟨2001, 1, 1⟩, ⟨2001, 2, 2⟩] = [((1, 1), 2)] := by
  refine ⟨?_, rfl⟩
  intro dates k c
  simp only [find_shared_birthdays, List.mem_filter, List.mem_map, List.mem_dedup,
    decide_eq_true_eq, Prod.mk.injEq]
  constructor
  · rintro ⟨⟨a, ha, rfl, hcount⟩, hc⟩
    exact ⟨hcount, hc⟩
  · rintro ⟨hcount, hc⟩
    refine ⟨⟨k, ?_, rfl, hcount⟩, hc⟩
    exact List.count_pos_iff.mp (by omega)

/-! ### Expected matching pairs -/

/-- Claim C6: for every `n ≥ 0` and `days ≥ 1`, `expected_matching_pairs(n, days)`
equals `n * (n - 1) / (2 * days)` exactly; in particular at `(23, 365)` it equals
`23 * 22 / (2 * 365)`, which is within `1e-3` of `0.693`. -/
theorem claim_C6 (n days : ℕ) (hd : 1 ≤ days) :
    expected_matching_pairs n days = (n : ℚ) * ((n : ℚ) - 1) / (2 * days) ∧
    expected_matching_pairs 23 365 = 23 * 22 / (2 * 365) ∧
    |expected_matching_pairs 23 365 - 693 / 1000| ≤ 1 / 1000 := by
  refine ⟨rfl, by norm_num [expected_matching_pairs], ?_⟩
  rw [abs_sub_le_iff]
  constructor <;> norm_num [expected_matching_pairs]

/-- Closed witness for `claim_C6` at concrete inputs. -/
theorem claim_C6_witness : expected_matching_pairs 23 365 = 23 * 22 / (2 * 365) :=
  (claim_C6 23 365 (by norm_num)).2.1

/-! ### Group generation and the random source -/

/-- Counterexample to claim C7 as stated: at `n = -1`, `generate_group` does not
fail with an invalid-argument condition — it returns normally with the empty
list, because Python's `range(-1)` is empty and no validation is performed. -/
theorem claim_C7_counterexample :
    generate_group (-1) false (fun _ => (0, 0)) = Except.ok [] := rfl

/-- Claim C7 (amended): for every `n < 0`, `generate_group(n, include_leap)`
returns normally with the empty group, for every outcome of the random source:
`range(n)` is empty for negative `n` and the source performs no argument
validation. -/
theorem claim_C7 (n : ℤ) (hn : n < 0) (include_leap : Bool) (rands : ℕ → ℕ × ℕ) :
    generate_group n include_leap rands = Except.ok [] := by
  unfold generate_group
  rw [Int.toNat_of_nonpos (le_of_lt hn)]
  rfl

/-- Closed witness for `claim_C7` at concrete inputs. -/
theorem claim_C7_witness :
    generate_group (-2) true (fun _ => (0, 0)) = Except.ok [] :=
  claim_C7 (-2) (by norm_num) true (fun _ => (0, 0))

/-- Claim C8 is a code bug: `random_birthday` keeps its default `year = 2001`,
which is not a leap year, so with `include_leap = true` the leap month table
offers February 29 while `dt.date(2001, 2, 29)` rejects it.  Concretely, the
outcome `r = 31` (the month draw lands in February) and `v = 28` (so
`randint(1, 29)` yields day 29) makes the constructor's error branch fire,
contradicting the claim that it is unreachable. -/
theorem claim_C8 :
    random_birthday 2001 true 31 28 =
      Except.error "ValueError: day is out of range for month" := rfl


/-! ### Simulation claims

Both `simulated_probability` and `collision_histogram` run `generate_group`
inside their trial loops, so the `ValueError` path exhibited by `claim_C8`
(`include_leap = true` with the default non-leap year 2001) is reachable inside
them and propagates out.  The lemmas below give the `Except`/`mapM` plumbing and
show that with `include_leap = false` and in-range month draws the generation
never fails. -/

lemma except_bind_ok {α β : Type} (a : α) (g : α → Except String β) :
    (Except.ok a >>= g) = g a := rfl

lemma except_bind_error {α β : Type} (e : String) (g : α → Except String β) :
    ((Except.error e : Except String α) >>= g) = Except.error e := rfl

lemma except_pure_eq_ok {α : Type} (a : α) :
    (pure a : Except String α) = Except.ok a := rfl

lemma exceptMapM_ok_of_forall {α β : Type} (f : α → Except String β) :
    ∀ l : List α, (∀ a ∈ l, ∃ b, f a = Except.ok b) →
      ∃ bs, l.mapM f = Except.ok bs := by
  intro l
  induction l with
  | nil =>
    intro _
    exact ⟨[], by rw [List.mapM_nil, except_pure_eq_ok]⟩
  | cons a l ih =>
    intro h
    obtain ⟨b, hb⟩ := h a (List.mem_cons_self a l)
    obtain ⟨bs, hbs⟩ := ih (fun x hx => h x (List.mem_cons_of_mem a hx))
    refine ⟨b :: bs, ?_⟩
    rw [List.mapM_cons, hb, except_bind_ok, hbs, except_bind_ok, except_pure_eq_ok]

lemma exceptMapM_length {α β : Type} (f : α → Except String β) :
    ∀ (l : List α) (bs : List β), l.mapM f = Except.ok bs → bs.length = l.length := by
  intro l
  induction l with
  | nil =>
    intro bs h
    rw [List.mapM_nil, except_pure_eq_ok] at h
    obtain rfl := Except.ok.inj h
    rfl
  | cons a l ih =>
    intro bs h
    rw [List.mapM_cons] at h
    cases hfa : f a with
    | error e =>
      rw [hfa, except_bind_error] at h
      exact Except.noConfusion h
    | ok b =>
      rw [hfa, except_bind_ok] at h
      cases hml : l.mapM f with
      | error e =>
        rw [hml, except_bind_error] at h
        exact Except.noConfusion h
      | ok xs =>
        rw [hml, except_bind_ok, except_pure_eq_ok] at h
        obtain rfl := Except.ok.inj h
        simp [ih xs hml]

set_option maxRecDepth 4000 in
lemma weighted_choice_common_ok :
    ∀ r, r < 365 →
      1 ≤ weighted_choice MONTH_LENGTHS_COMMON r ∧
      weighted_choice MONTH_LENGTHS_COMMON r ≤ 12 ∧
      0 < MONTH_LENGTHS_COMMON.getD (weighted_choice MONTH_LENGTHS_COMMON r - 1) 0 ∧
      MONTH_LENGTHS_COMMON.getD (weighted_choice MONTH_LENGTHS_COMMON r - 1) 0 ≤
        days_in_month 2001 (weighted_choice MONTH_LENGTHS_COMMON r) := by
  decide

lemma random_birthday_common_ok (r v : ℕ) (hr : r < 365) :
    ∃ d, random_birthday 2001 false r v = Except.ok d := by
  obtain ⟨h1, h2, h3, h4⟩ := weighted_choice_common_ok r hr
  have hm : v % MONTH_LENGTHS_COMMON.getD (weighted_choice MONTH_LENGTHS_COMMON r - 1) 0 <
      MONTH_LENGTHS_COMMON.getD (weighted_choice MONTH_LENGTHS_COMMON r - 1) 0 :=
    Nat.mod_lt v h3
  refine ⟨⟨2001, weighted_choice MONTH_LENGTHS_COMMON r,
    1 + v % MONTH_LENGTHS_COMMON.getD (weighted_choice MONTH_LENGTHS_COMMON r - 1) 0⟩, ?_⟩
  show dt_date 2001 (weighted_choice MONTH_LENGTHS_COMMON r)
      (1 + v % MONTH_LENGTHS_COMMON.getD (weighted_choice MONTH_LENGTHS_COMMON r - 1) 0) =
    Except.ok ⟨2001, weighted_choice MONTH_LENGTHS_COMMON r,
      1 + v % MONTH_LENGTHS_COMMON.getD (weighted_choice MONTH_LENGTHS_COMMON r - 1) 0⟩
  rw [dt_date, if_pos ⟨h1, h2, by omega, by omega⟩]

lemma generate_group_common_ok (n : ℤ) (rands : ℕ → ℕ × ℕ)
    (h : ∀ i, (rands i).1 < 365) :
    ∃ ds, generate_group n false rands = Except.ok ds := by
  unfold generate_group
  apply exceptMapM_ok_of_forall
  intro i _
  exact random_birthday_common_ok (rands i).1 (rands i).2 (h i)

lemma histogram_assoc_mem (groups : List (List Date)) (l : String) (c : ℕ) :
    ((l, c) ∈ ((groups.map (fun g => bucket_label (find_shared_birthdays g).length)).dedup.map
        (fun l' =>
          (l', (groups.map (fun g => bucket_label (find_shared_birthdays g).length)).count l'))) ↔
      ((groups.map (fun g => bucket_label (find_shared_birthdays g).length)).count l = c ∧
        0 < c)) := by
  simp only [List.mem_map, List.mem_dedup, Prod.mk.injEq]
  constructor
  · rintro ⟨a, ha, rfl, rfl⟩
    exact ⟨rfl, List.count_pos_iff.mpr (List.mem_map.mpr ha)⟩
  · rintro ⟨rfl, hc⟩
    exact ⟨l, List.mem_map.mp (List.count_pos_iff.mp hc), rfl, rfl⟩

lemma bucket_label_mem_labels (k : ℕ) :
    bucket_label k = "0 days with duplicates" ∨ bucket_label k = "1 day with duplicates" ∨
      bucket_label k = "2+ days with duplicates" := by
  unfold bucket_label
  split_ifs with h0 h1
  · exact Or.inl rfl
  · exact Or.inr (Or.inl rfl)
  · exact Or.inr (Or.inr rfl)

/-- Counterexample to claim C9 as stated: the claim quantifies over every outcome
of the random source, but on the outcome of `claim_C8` (`include_leap = true`,
month draw 31, day draw 28, i.e. February 29 in the non-leap default year 2001)
the very first trial's `generate_group` raises `ValueError`, which propagates out
of `collision_histogram` instead of any classification happening. -/
theorem claim_C9_counterexample :
    collision_histogram 2 1 true (fun _ _ => (31, 28)) =
      Except.error "ValueError: day is out of range for month" := rfl

/-- Claim C9 (amended): for every `n`, `trials`, `include_leap` and every outcome
of the random source on which every trial's `generate_group` returns normally,
`collision_histogram` returns a mapping that classifies each trial by the number
`k` of distinct colliding days computed via `find_shared_birthdays` (bucket
"0 days with duplicates" when `k = 0`, "1 day with duplicates" when `k = 1`,
"2+ days with duplicates" when `k ≥ 2`); a label is a key of the mapping iff its
count is positive (never zero-filled), and no key outside the three labels
occurs.  Moreover with `include_leap = false` and in-range month draws every
outcome generates normally, so the characterisation covers every outcome there;
with `include_leap = true` some outcomes instead raise `ValueError`
(`claim_C9_counterexample`). -/
theorem claim_C9 (n : ℤ) (trials : ℕ) (include_leap : Bool)
    (rands : ℕ → ℕ → ℕ × ℕ) :
    (∀ groups : List (List Date),
      generated_groups n trials include_leap rands = Except.ok groups →
      ∃ hist, collision_histogram n trials include_leap rands = Except.ok hist ∧
        (∀ (l : String) (c : ℕ),
          ((l, c) ∈ hist ↔
            ((groups.map (fun g => bucket_label (find_shared_birthdays g).length)).count l = c ∧
              0 < c))) ∧
        (∀ (l : String) (c : ℕ), (l, c) ∈ hist →
          l = "0 days with duplicates" ∨ l = "1 day with duplicates" ∨
            l = "2+ days with duplicates")) ∧
    (∀ k : ℕ, (k = 0 → bucket_label k = "0 days with duplicates") ∧
      (k = 1 → bucket_label k = "1 day with duplicates") ∧
      (2 ≤ k → bucket_label k = "2+ days with duplicates")) ∧
    (include_leap = false → (∀ t i, (rands t i).1 < 365) →
      ∃ groups, generated_groups n trials include_leap rands = Except.ok groups) := by
  refine ⟨?_, ?_, ?_⟩
  · intro groups hgen
    refine ⟨(groups.map (fun g => bucket_label (find_shared_birthdays g).length)).dedup.map
        (fun l' =>
          (l', (groups.map (fun g => bucket_label (find_shared_birthdays g).length)).count l')),
      ?_, ?_, ?_⟩
    · unfold collision_histogram
      rw [hgen, except_bind_ok]
    · intro l c
      exact histogram_assoc_mem groups l c
    · intro l c hin
      have hc := (histogram_assoc_mem groups l c).mp hin
      have hl := List.count_pos_iff.mp
        (show 0 < (groups.map (fun g => bucket_label (find_shared_birthdays g).length)).count l
          by omega)
      rw [List.mem_map] at hl
      obtain ⟨g, _, hg⟩ := hl
      rw [← hg]
      exact bucket_label_mem_labels _
  · intro k
    refine ⟨fun h => by simp [bucket_label, h], fun h => by simp [bucket_label, h], fun h => ?_⟩
    unfold bucket_label
    rw [if_neg (by omega), if_neg (by omega)]
  · rintro rfl hr
    unfold generated_groups
    exact exceptMapM_ok_of_forall _ _
      (fun t _ => generate_group_common_ok n (rands t) (fun i => hr t i))

/-- Closed witness for `claim_C9` at a concrete outcome: one trial whose group
has one duplicated day lands in the "1 day with duplicates" bucket with count 1. -/
theorem claim_C9_witness :
    ∃ hist, collision_histogram 2 1 false (fun _ _ => (0, 0)) = Except.ok hist ∧
      ("1 day with duplicates", 1) ∈ hist := by
  obtain ⟨hist, heq, hmem, _⟩ :=
    (claim_C9 2 1 false (fun _ _ => (0, 0))).1 [[⟨2001, 1, 1⟩, ⟨2001, 1, 1⟩]] rfl
  exact ⟨hist, heq, (hmem "1 day with duplicates" 1).mpr ⟨rfl, by norm_num⟩⟩

/-- Counterexample to claim C10 as stated: the claim quantifies over every
outcome of the random source and asserts a normal return whenever `trials ≥ 1`,
but on the outcome of `claim_C8` (`include_leap = true`, month draw 31, day draw
28) the first trial's `generate_group` raises `ValueError`, which propagates out
of `simulated_probability` instead of `hits / trials` being returned. -/
theorem claim_C10_counterexample :
    simulated_probability 2 1 true (fun _ _ => (31, 28)) =
      Except.error "ValueError: day is out of range for month" := rfl

/-- Claim C10 (amended): for every outcome of the random source on which every
trial's `generate_group` returns normally, `simulated_probability` with
`trials ≥ 1` returns the number of generated groups satisfying
`has_shared_birthday` divided by `trials`, a value in `[0, 1]`; with `trials = 0`
the final division is an unguarded division by zero, which fails
(`ZeroDivisionError`) for every outcome.  Moreover with `include_leap = false`
and in-range month draws every outcome generates normally; with
`include_leap = true` some outcomes instead raise `ValueError`
(`claim_C10_counterexample`). -/
theorem claim_C10 (n : ℤ) (trials : ℕ) (include_leap : Bool)
    (rands : ℕ → ℕ → ℕ × ℕ) :
    (∀ groups : List (List Date),
      generated_groups n trials include_leap rands = Except.ok groups →
      1 ≤ trials →
      simulated_probability n trials include_leap rands =
        Except.ok (((groups.countP (fun g => has_shared_birthday g) : ℕ) : ℚ) /
          ((trials : ℕ) : ℚ)) ∧
      ∀ q : ℚ, simulated_probability n trials include_leap rands = Except.ok q →
        0 ≤ q ∧ q ≤ 1) ∧
    (trials = 0 →
      simulated_probability n trials include_leap rands =
        Except.error "ZeroDivisionError") ∧
    (include_leap = false → (∀ t i, (rands t i).1 < 365) →
      ∃ groups, generated_groups n trials include_leap rands = Except.ok groups) := by
  refine ⟨?_, ?_, ?_⟩
  · intro groups hgen htr
    have hne : ((trials : ℕ) : ℚ) ≠ 0 := Nat.cast_ne_zero.mpr (by omega)
    have heq : simulated_probability n trials include_leap rands =
        Except.ok (((groups.countP (fun g => has_shared_birthday g) : ℕ) : ℚ) /
          ((trials : ℕ) : ℚ)) := by
      unfold simulated_probability
      rw [hgen, except_bind_ok]
      unfold py_div
      rw [if_neg hne]
    refine ⟨heq, ?_⟩
    intro q hq
    rw [heq] at hq
    obtain rfl := (Except.ok.inj hq).symm
    have hlen : groups.length = trials := by
      have h := exceptMapM_length _ _ _ hgen
      rwa [List.length_range] at h
    have hpos : (0 : ℚ) < ((trials : ℕ) : ℚ) := by
      exact_mod_cast Nat.lt_of_lt_of_le Nat.zero_lt_one htr
    have hle : ((groups.countP (fun g => has_shared_birthday g) : ℕ) : ℚ) ≤
        ((trials : ℕ) : ℚ) := by
      have := List.countP_le_length (fun g => has_shared_birthday g) (l := groups)
      exact_mod_cast hlen ▸ this
    constructor
    · exact div_nonneg (Nat.cast_nonneg _) (le_of_lt hpos)
    · rw [div_le_one hpos]
      exact hle
  · intro h0
    subst h0
    unfold simulated_probability generated_groups
    rw [List.range_zero, List.mapM_nil, except_pure_eq_ok, except_bind_ok]
    unfold py_div
    rw [if_pos (by norm_num)]
  · rintro rfl hr
    unfold generated_groups
    exact exceptMapM_ok_of_forall _ _
      (fun t _ => generate_group_common_ok n (rands t) (fun i => hr t i))

/-- Closed witness for `claim_C10` at a concrete outcome: one trial whose group
has a duplicate gives simulated probability `1 / 1`. -/
theorem claim_C10_witness :
    simulated_probability 2 1 false (fun _ _ => (0, 0)) =
      Except.ok ((([[(⟨2001, 1, 1⟩ : Date), ⟨2001, 1, 1⟩]].countP
        (fun g => has_shared_birthday g) : ℕ) : ℚ) / ((1 : ℕ) : ℚ)) :=
  (((claim_C10 2 1 false (fun _ _ => (0, 0))).1 [[⟨2001, 1, 1⟩, ⟨2001, 1, 1⟩]]
    rfl (by norm_num)).1)
